import Mathlib

/-!
Shallow embedding of the DrissionPage scheduler package
(src/DrissionPage/_scheduler: cron_parser.py, task.py, executor.py and
src/DrissionPage/_functions/task_manager.py), together with theorems
checking the natural-language specification against it.

Python datetimes are modelled by the structure DT below (proleptic
Gregorian calendar, the calendar Python's datetime uses); machine-level
concerns (microsecond clock reads, file IO) are modelled by explicit
parameters.  Strings handled by the cron parser are modelled as lists of
characters, and the Python str operations used by the source
(strip / split / membership / int conversion) are translated to
executable Lean functions on lists of characters.
-/

/-! ## Calendar model (Python datetime semantics) -/

/-- A calendar instant, mirroring the fields of a Python datetime that the
scheduler source reads or writes. -/
structure DT where
  year : Nat
  month : Nat
  day : Nat
  hour : Nat
  minute : Nat
  second : Nat
  micro : Nat
  deriving DecidableEq, Repr

/-- Gregorian leap-year rule, as implemented by Python's calendar. -/
def isLeap (y : Nat) : Bool :=
  (y % 4 == 0 && y % 100 != 0) || (y % 400 == 0)

/-- Number of days of month m in year y (Python datetime calendar). -/
def daysInMonth (y m : Nat) : Nat :=
  if m = 2 then (if isLeap y then 29 else 28)
  else if m = 4 ∨ m = 6 ∨ m = 9 ∨ m = 11 then 30
  else 31

/-- A DT is a datetime Python would accept: fields inside their ranges. -/
def DTValid (t : DT) : Prop :=
  1 ≤ t.month ∧ t.month ≤ 12 ∧ 1 ≤ t.day ∧ t.day ≤ daysInMonth t.year t.month ∧
  t.hour ≤ 23 ∧ t.minute ≤ 59 ∧ t.second ≤ 59 ∧ t.micro ≤ 999999

instance (t : DT) : Decidable (DTValid t) := by
  unfold DTValid; infer_instance

/-- datetime + timedelta(days=1). -/
def addDay (t : DT) : DT :=
  if t.day < daysInMonth t.year t.month then { t with day := t.day + 1 }
  else if t.month = 12 then { t with year := t.year + 1, month := 1, day := 1 }
  else { t with month := t.month + 1, day := 1 }

/-- datetime + timedelta(hours=1). -/
def addHour (t : DT) : DT :=
  if t.hour < 23 then { t with hour := t.hour + 1 }
  else { addDay t with hour := 0 }

/-- datetime + timedelta(minutes=1). -/
def addMinute (t : DT) : DT :=
  if t.minute < 59 then { t with minute := t.minute + 1 }
  else { addHour t with minute := 0 }

/-- Lexicographic day index used to compare instants (strictly monotone in
calendar order for valid dates). -/
def dayIdx (t : DT) : Nat :=
  (t.year * 12 + (t.month - 1)) * 31 + (t.day - 1)

/-- Second-granularity key: strictly monotone in calendar order for valid
instants. -/
def secKey (t : DT) : Nat :=
  (dayIdx t * 24 + t.hour) * 3600 + t.minute * 60 + t.second

/-- Full comparison key including the sub-second part. -/
def dtKey (t : DT) : Nat :=
  secKey t * 1000000 + t.micro

/-- Number of leap years in 1..y. -/
def leapsBefore (y : Nat) : Nat := y / 4 - y / 100 + y / 400

/-- Days in months 1..m of year y. -/
def daysBeforeMonth (y : Nat) : Nat → Nat
  | 0 => 0
  | m + 1 => daysBeforeMonth y m + daysInMonth y (m + 1)

/-- Python date.toordinal(): day count in the proleptic Gregorian
calendar, with 0001-01-01 having ordinal 1. -/
def toOrdinal (t : DT) : Nat :=
  365 * (t.year - 1) + leapsBefore (t.year - 1) + daysBeforeMonth t.year (t.month - 1) + t.day

/-- Python date.weekday(): 0 = Monday .. 6 = Sunday.  0001-01-01 is a
Monday in the proleptic Gregorian calendar. -/
def pyWeekday (t : DT) : Nat := (toOrdinal t + 6) % 7

/-- The weekday convention documented by the source comment on the cron
weekday field (cron_parser.py line 26: 0 = Sunday .. 6 = Saturday).
Modelled from the spec: the spec and the in-code comment state the
0 = Sunday convention; no function in the source computes it. -/
def sundayWeekday (t : DT) : Nat := (pyWeekday t + 1) % 7

/-! ## Cron expression model (cron_parser.py) -/

/-- The five parsed value sets of CronParser. -/
structure Cron where
  minute : List Nat
  hour : List Nat
  day : List Nat
  month : List Nat
  weekday : List Nat
  deriving DecidableEq, Repr

/-- Python min() over a nonempty list (junk value 0 on the empty list,
which the source never reaches for lists produced by parsing). -/
def listMin : List Nat → Nat
  | [] => 0
  | x :: xs => xs.foldl Nat.min x

/-- The month-mismatch jump of get_next_run_time (cron_parser.py
lines 99-105): first day of the next month, hour 0, minute 0. -/
def monthSkip (t : DT) : DT :=
  if t.month = 12 then
    { t with year := t.year + 1, month := 1, day := 1, hour := 0, minute := 0 }
  else
    { t with month := t.month + 1, day := 1, hour := 0, minute := 0 }

/-- The day/weekday-mismatch jump (lines 108-119): next day, hour 0,
minute 0. -/
def daySkip (t : DT) : DT :=
  { addDay t with hour := 0, minute := 0 }

/-- The hour-mismatch jump (lines 122-126): next hour, minute 0. -/
def hourSkip (t : DT) : DT :=
  { addHour t with minute := 0 }

/-- The search loop of CronParser.get_next_run_time (lines 97-141),
with explicit fuel standing for the number of loop iterations: the Python
loop is `while True` and need not terminate. -/
def nextRunAux (c : Cron) : Nat → DT → Option DT
  | 0, _ => none
  | fuel + 1, t =>
    if t.month ∉ c.month then nextRunAux c fuel (monthSkip t)
    else if t.day ∉ c.day then nextRunAux c fuel (daySkip t)
    else if pyWeekday t ∉ c.weekday then nextRunAux c fuel (daySkip t)
    else if t.hour ∉ c.hour then nextRunAux c fuel (hourSkip t)
    else if t.minute ∉ c.minute then
      if c.minute.filter (fun m => t.minute < m) ≠ [] then
        nextRunAux c fuel { t with minute := listMin (c.minute.filter (fun m => t.minute < m)) }
      else nextRunAux c fuel { addHour t with minute := listMin c.minute }
    else some t

/-- CronParser.get_next_run_time (lines 85-141): floor the base time to
the minute, advance one minute, then run the search loop. -/
def getNextRunTime (c : Cron) (base : DT) (fuel : Nat) : Option DT :=
  nextRunAux c fuel (addMinute { base with second := 0, micro := 0 })

/-! ## Python string-operation model for the parser -/

/-- The whitespace characters recognised by Python str.strip()/str.split()
(ASCII subset, the only ones reachable from cron expressions). -/
def isWs (c : Char) : Bool :=
  c = ' ' ∨ c = '\t' ∨ c = '\n' ∨ c = '\r'

/-- Python str.strip(). -/
def pyStrip (cs : List Char) : List Char :=
  ((cs.dropWhile isWs).reverse.dropWhile isWs).reverse

/-- Python str.split() with no separator: split on whitespace runs,
dropping empty pieces. -/
def pySplitWs : List Char → List Char → List (List Char)
  | [], acc => if acc = [] then [] else [acc.reverse]
  | c :: cs, acc =>
    if isWs c then
      if acc = [] then pySplitWs cs [] else acc.reverse :: pySplitWs cs []
    else pySplitWs cs (c :: acc)

/-- Python str.split(sep) for a one-character separator: keeps empty
pieces and always yields at least one piece. -/
def pySplitOn (sep : Char) : List Char → List Char → List (List Char)
  | [], acc => [acc.reverse]
  | c :: cs, acc =>
    if c = sep then acc.reverse :: pySplitOn sep cs []
    else pySplitOn sep cs (c :: acc)

/-- Python substring test for the two-character pattern star-slash. -/
def hasStarSlash : List Char → Bool
  | [] => false
  | [_] => false
  | c :: d :: cs => if c = '*' ∧ d = '/' then true else hasStarSlash (d :: cs)

/-- Python str.split on the two-character separator star-slash. -/
def splitStarSlash : List Char → List Char → List (List Char)
  | [], acc => [acc.reverse]
  | [c], acc => [(c :: acc).reverse]
  | c :: d :: cs, acc =>
    if c = '*' ∧ d = '/' then acc.reverse :: splitStarSlash cs []
    else splitStarSlash (d :: cs) (c :: acc)

/-- Decimal digit run to a number; none if empty or non-digit. -/
def digitsVal (cs : List Char) : Option Nat :=
  if cs = [] then none
  else if cs.all (fun c => c.isDigit) then
    some (cs.foldl (fun n c => n * 10 + (c.toNat - 48)) 0)
  else none

/-- Python int(s): strip whitespace, optional sign, decimal digits. -/
def pyInt (cs : List Char) : Option Int :=
  if (pyStrip cs).head? = some '+' then (digitsVal (pyStrip cs).tail).map Int.ofNat
  else if (pyStrip cs).head? = some '-' then
    (digitsVal (pyStrip cs).tail).map (fun n => -(n : Int))
  else (digitsVal (pyStrip cs)).map Int.ofNat

/-! ## Cron field parsing (CronParser._parse_field, lines 30-83) -/

/-- Python range(start, stop) as a list. -/
def pyRange (start stop : Nat) : List Nat :=
  List.range' start (stop - start)

/-- Python range(start, stop, step) as a list, for step > 0. -/
def pyRangeStep (start stop step : Nat) : List Nat :=
  List.range' start ((stop - start + step - 1) / step) step

/-- Python sorted(list(set(l))): the distinct values in ascending order.
Implemented as insertion sort over the deduplicated list. -/
def insertAsc (x : Nat) : List Nat → List Nat
  | [] => [x]
  | y :: ys => if x ≤ y then x :: y :: ys else y :: insertAsc x ys

def sortAsc : List Nat → List Nat
  | [] => []
  | x :: xs => insertAsc x (sortAsc xs)

def sortedSet (l : List Nat) : List Nat := sortAsc l.dedup

/-- The item loop of the comma-list branch (lines 50-64): parse each
item, check bounds, collect. -/
def parseItems (lo hi : Nat) : List (List Char) → Except String (List Nat)
  | [] => Except.ok []
  | item :: rest =>
    match pyInt item with
    | none => Except.error "invalid list item"
    | some v =>
      if v < (lo : Int) ∨ v > (hi : Int) then Except.error "list item out of range"
      else do
        let vs ← parseItems lo hi rest
        pure (v.toNat :: vs)

/-- CronParser._parse_field (lines 30-83).  Branch order follows the
source: star, hyphen range, comma list, star-slash step, single value. -/
def parseField (field : List Char) (lo hi : Nat) : Except String (List Nat) :=
  if field = ['*'] then Except.ok (pyRange lo (hi + 1))
  else if field.contains '-' then
    match pySplitOn '-' field [] with
    | [s, e] =>
      match pyInt s, pyInt e with
      | some a, some b =>
        if a < (lo : Int) ∨ b > (hi : Int) ∨ a > b then
          Except.error "range out of bounds"
        else Except.ok (pyRange a.toNat (b.toNat + 1))
      | _, _ => Except.error "invalid range"
    | _ => Except.error "invalid range unpacking"
  else if field.contains ',' then
    (parseItems lo hi (pySplitOn ',' field [])).map sortedSet
  else if hasStarSlash field then
    match (splitStarSlash field []).get? 1 with
    | none => Except.error "invalid step"
    | some s =>
      match pyInt s with
      | none => Except.error "invalid step"
      | some st =>
        if st ≤ 0 then Except.error "invalid step value"
        else Except.ok (pyRangeStep lo (hi + 1) st.toNat)
  else
    match pyInt field with
    | none => Except.error "invalid field value"
    | some v =>
      if v < (lo : Int) ∨ v > (hi : Int) then Except.error "field value out of range"
      else Except.ok [v.toNat]

/-- CronParser._parse_expression (lines 16-28): strip, split on
whitespace, require exactly five fields, parse each against its bounds. -/
def parseExpression (cs : List Char) : Except String Cron :=
  match pySplitWs (pyStrip cs) [] with
  | [p1, p2, p3, p4, p5] => do
    let minute ← parseField p1 0 59
    let hour ← parseField p2 0 23
    let day ← parseField p3 1 31
    let month ← parseField p4 1 12
    let weekday ← parseField p5 0 6
    pure ⟨minute, hour, day, month, weekday⟩
  | _ => Except.error "cron expression must have 5 fields"

/-- Entry point over Lean strings. -/
def parseCron (s : String) : Except String Cron :=
  parseExpression s.toList

/-! ## Task and execution-record model (task.py) -/

/-- Execution statuses (TaskExecution.STATUS_*). -/
inductive ExecStatus
  | waiting
  | running
  | completed
  | failed
  | cancelled
  deriving DecidableEq, Repr

def ExecStatus.str : ExecStatus → String
  | .waiting => "waiting"
  | .running => "running"
  | .completed => "completed"
  | .failed => "failed"
  | .cancelled => "cancelled"

/-- Task (task.py lines 7-17): the scheduler-package task record.  The
class has no timeout attribute.  (Named SchedTask here because Lean's
core library already declares Task.) -/
structure SchedTask where
  taskId : String
  name : String
  scriptPath : String
  params : List (String × String)
  cronExpr : Option String
  maxRetries : Nat
  retryInterval : Nat
  deriving DecidableEq, Repr

/-- TaskExecution (task.py lines 45-92).  Wall-clock instants are Nat
seconds supplied explicitly where the source reads datetime.now(). -/
structure TaskExecution where
  executionId : String
  taskId : String
  taskName : String
  status : ExecStatus
  startTime : Option Nat
  endTime : Option Nat
  duration : Option Int
  result : Option String
  errorMessage : Option String
  retryCount : Nat
  logPath : Option String
  deriving DecidableEq, Repr

/-- TaskExecution.__init__ (lines 53-64). -/
def initExecution (executionId taskId taskName : String) : TaskExecution :=
  { executionId := executionId, taskId := taskId, taskName := taskName,
    status := .waiting, startTime := none, endTime := none, duration := none,
    result := none, errorMessage := none, retryCount := 0, logPath := none }

/-- TaskExecution.start (lines 66-69). -/
def TaskExecution.startAt (e : TaskExecution) (now : Nat) : TaskExecution :=
  { e with status := .running, startTime := some now }

/-- The shared duration computation of complete/fail/cancel
(int((end - start).total_seconds()), guarded by if self.start_time). -/
def durationFrom (startTime : Option Nat) (now : Nat) (old : Option Int) : Option Int :=
  match startTime with
  | some s => some ((now : Int) - (s : Int))
  | none => old

/-- TaskExecution.complete (lines 71-77). -/
def TaskExecution.completeAt (e : TaskExecution) (now : Nat) (result : Option String) : TaskExecution :=
  { e with
    status := .completed
    endTime := some now
    result := result
    duration := durationFrom e.startTime now e.duration }

/-- TaskExecution.fail (lines 79-85). -/
def TaskExecution.failAt (e : TaskExecution) (now : Nat) (msg : String) : TaskExecution :=
  { e with
    status := .failed
    endTime := some now
    errorMessage := some msg
    duration := durationFrom e.startTime now e.duration }

/-- TaskExecution.cancel (lines 87-92). -/
def TaskExecution.cancelAt (e : TaskExecution) (now : Nat) : TaskExecution :=
  { e with
    status := .cancelled
    endTime := some now
    duration := durationFrom e.startTime now e.duration }

/-! ## Executor model (executor.py) -/

/-- What the operating system does with one subprocess.run invocation:
the process finishes with an exit code and captured streams, exceeds the
timeout ceiling, or the launch raises. -/
inductive ProcResult
  | finished (returncode : Int) (stdout stderr : String)
  | timedOut
  | raised (msg : String)
  deriving DecidableEq, Repr

/-- TaskExecutor._execute_script (lines 33-64): the subprocess call uses
the fixed keyword argument timeout=3600 (line 50); both the
TimeoutExpired handler and the generic handler convert the failure into
the return value (-1, empty stdout, message). -/
def scriptTimeoutCeiling : Nat := 3600

def executeScript (pr : ProcResult) : Int × String × String :=
  match pr with
  | .finished rc out err => (rc, out, err)
  | .timedOut => (-1, "", "Script execution timed out after 3600 seconds")
  | .raised e => (-1, "", "Script execution failed: " ++ e)

/-- One attempt as seen by execute_task's try block: either the
_execute_script call returns, or some statement in the try block raises
(caught by the except branch, lines 103-114). -/
inductive AttemptOutcome
  | script (pr : ProcResult)
  | exc (msg : String)
  deriving DecidableEq, Repr

/-- The retry loop of TaskExecutor.execute_task (lines 75-114).  The
oracle gives the outcome of each attempt (indexed by retry_count); fuel
is maxRetries + 1 - retry_count, which makes the recursion structural —
the loop itself always exits by break after at most maxRetries + 1
iterations.  Returns the record and the number of attempts made. -/
def runAttempts (maxRetries : Nat) (oracle : Nat → AttemptOutcome) (now : Nat) :
    Nat → Nat → TaskExecution → TaskExecution × Nat
  | 0, rc, e => (e, rc)
  | fuel + 1, rc, e =>
    match oracle rc with
    | .script pr =>
      if (executeScript pr).1 = 0 then
        ({ e.completeAt now
            (some ("Script executed successfully. Return code: " ++ toString (executeScript pr).1))
            with retryCount := rc }, rc + 1)
      else
        if rc < maxRetries then runAttempts maxRetries oracle now fuel (rc + 1) e
        else
          ({ e.failAt now ("Script execution failed with return code " ++
              toString (executeScript pr).1 ++ ". STDERR: " ++ (executeScript pr).2.2)
              with retryCount := rc }, rc + 1)
    | .exc msg =>
      if rc < maxRetries then runAttempts maxRetries oracle now fuel (rc + 1) e
      else ({ e.failAt now ("Task execution failed: " ++ msg) with retryCount := rc }, rc + 1)

/-- TaskExecutor.execute_task (lines 66-116): start the record, attach
the log path, run the retry loop. -/
def executeTask (t : SchedTask) (oracle : Nat → AttemptOutcome) (now : Nat)
    (e : TaskExecution) : TaskExecution × Nat :=
  let e1 := e.startAt now
  let e2 := { e1 with logPath := some ("logs/" ++ e1.executionId ++ ".log") }
  runAttempts t.maxRetries oracle now (t.maxRetries + 1) 0 e2

/-- Modelled from the spec: the Task record of spec section 3 carries a
timeout field ("timeout (seconds)") that the executor is claimed to
enforce per attempt; the source Task class has no such attribute. -/
structure SpecTask where
  task : SchedTask
  timeout : Nat
  deriving DecidableEq, Repr

/-! ## Execution history model (task.py lines 144-196) -/

/-- A record as loaded by ExecutionHistory (from_dict keeps the stored
status string as-is). -/
structure HistRec where
  executionId : String
  taskId : String
  taskName : String
  status : String
  startTime : Option Nat
  deriving DecidableEq, Repr

/-- Sort key of get_all_executions line 175: x.start_time or
datetime.min. -/
def startKey (r : HistRec) : Nat := r.startTime.getD 0

/-- Descending insertion sort by start key, modelling
executions.sort(key=..., reverse=True). -/
def insertDesc (r : HistRec) : List HistRec → List HistRec
  | [] => [r]
  | x :: xs => if startKey x ≤ startKey r then r :: x :: xs else x :: insertDesc r xs

def sortDesc : List HistRec → List HistRec
  | [] => []
  | x :: xs => insertDesc x (sortDesc xs)

/-- ExecutionHistory.get_all_executions (lines 162-176) on the records
successfully loaded from the history directory. -/
def getAllExecutions (records : List HistRec) : List HistRec :=
  sortDesc records

/-- Python truthiness of an optional string argument (an absent argument
and the empty string both skip the filter). -/
def strTruthy : Option String → Bool
  | none => false
  | some s => s ≠ ""

/-- ExecutionHistory.filter_executions (lines 178-196). -/
def filterExecutions (records : List HistRec)
    (taskName : Option String) (status : Option String)
    (startFrom : Option Nat) (startTo : Option Nat) : List HistRec :=
  let all := getAllExecutions records
  let f1 := if strTruthy taskName then all.filter (fun e => some e.taskName = taskName) else all
  let f2 := if strTruthy status then f1.filter (fun e => some e.status = status) else f1
  let f3 := match startFrom with
    | some lo => f2.filter (fun e => e.startTime.isSome ∧ lo ≤ startKey e)
    | none => f2
  match startTo with
  | some hi => f3.filter (fun e => e.startTime.isSome ∧ startKey e ≤ hi)
  | none => f3

/-! ## Task manager model (task_manager.py) -/

/-- Task of task_manager.py (lines 13-21), a distinct class from the
scheduler-package Task. -/
structure TMTask where
  taskId : String
  name : String
  scriptPath : String
  args : String
  descrText : String
  enabled : Bool
  deriving DecidableEq, Repr

/-- The insertion-ordered dict self.tasks of TaskManager. -/
structure TMState where
  tasks : List (String × TMTask)
  deriving DecidableEq, Repr

def tmLookup (m : List (String × TMTask)) (k : String) : Option TMTask :=
  (m.find? (fun p => p.1 = k)).map Prod.snd

/-- Python dict assignment d[k] = v on an insertion-ordered dict. -/
def tmInsert (m : List (String × TMTask)) (k : String) (v : TMTask) : List (String × TMTask) :=
  if (tmLookup m k).isSome then m.map (fun p => if p.1 = k then (k, v) else p)
  else m ++ [(k, v)]

/-- TaskManager.save_tasks (lines 68-76): writes the registry file; every
exception is caught inside and only printed, so the in-memory state and
the caller's control flow are unaffected whether or not the write
succeeds.  persistOk records whether the write succeeded. -/
def saveTasks (st : TMState) (_persistOk : Bool) : TMState := st

/-- TaskManager.add_task (lines 78-96): compute the id, mutate the
in-memory dict, then persist.  The while loop that retries the id on
collision recomputes the identical id, so a collision never terminates;
that divergent case is modelled as none. -/
def tmAddTask (st : TMState) (name scriptPath args descrText : String)
    (enabled : Bool) (persistOk : Bool) : Option (TMState × TMTask) :=
  let taskId := "task_" ++ toString (st.tasks.length + 1)
  if (tmLookup st.tasks taskId).isSome then none
  else
    let task : TMTask := ⟨taskId, name, scriptPath, args, descrText, enabled⟩
    let st1 : TMState := ⟨tmInsert st.tasks taskId task⟩
    some (saveTasks st1 persistOk, task)

/-- The parsed value sets of the expression 0 9 * * 1-5. -/
def cron195 : Cron := ⟨[0], [9], pyRange 1 32, pyRange 1 13, [1, 2, 3, 4, 5]⟩

/-- The parsed value sets of the expression */5 * * * *. -/
def cronStep5 : Cron :=
  ⟨pyRangeStep 0 60 5, pyRange 0 24, pyRange 1 32, pyRange 1 13, pyRange 0 7⟩

/-- The parsed value sets of the expression 0 0 31 2 *. -/
def cronFeb31 : Cron := ⟨[0], [0], [31], [2], [0, 1, 2, 3, 4, 5, 6]⟩

/-- The three terminal operations of TaskExecution (task.py lines 71-92),
as data, to quantify over the run-to-terminal transition. -/
inductive TerminalOp
  | completeOp (result : Option String)
  | failOp (msg : String)
  | cancelOp
  deriving DecidableEq, Repr

def applyTerminal (op : TerminalOp) (e : TaskExecution) (now : Nat) : TaskExecution :=
  match op with
  | .completeOp r => e.completeAt now r
  | .failOp m => e.failAt now m
  | .cancelOp => e.cancelAt now

/-- The terminal statuses of the spec (completed, failed, cancelled). -/
def isTerminalStatus : ExecStatus → Bool
  | .completed => true
  | .failed => true
  | .cancelled => true
  | _ => false

/-- Join token pieces with a separator character (used to state which
comma-list tokens the field parser accepts). -/
def joinSep (sep : Char) : List (List Char) → List Char
  | [] => []
  | [p] => p
  | p :: ps => p ++ sep :: joinSep sep ps

/-! ## Calendar lemmas -/

theorem daysInMonth_le (y m : Nat) : daysInMonth y m ≤ 31 := by
  unfold daysInMonth
  split
  · split <;> omega
  · split <;> omega

theorem daysInMonth_pos (y m : Nat) : 28 ≤ daysInMonth y m := by
  unfold daysInMonth
  split
  · split <;> omega
  · split <;> omega

theorem valid_addDay {t : DT} (h : DTValid t) : DTValid (addDay t) := by
  have p1 := daysInMonth_pos (t.year + 1) 1
  have p2 := daysInMonth_pos t.year (t.month + 1)
  obtain ⟨h1, h2, h3, h4, h5, h6, h7, h8⟩ := h
  unfold addDay
  split
  · refine ⟨?_, ?_, ?_, ?_, ?_, ?_, ?_, ?_⟩ <;> dsimp only <;> omega
  · split
    · refine ⟨?_, ?_, ?_, ?_, ?_, ?_, ?_, ?_⟩ <;> dsimp only <;> omega
    · refine ⟨?_, ?_, ?_, ?_, ?_, ?_, ?_, ?_⟩ <;> dsimp only <;> omega

theorem valid_addHour {t : DT} (h : DTValid t) : DTValid (addHour t) := by
  unfold addHour
  split
  · obtain ⟨h1, h2, h3, h4, h5, h6, h7, h8⟩ := h
    refine ⟨?_, ?_, ?_, ?_, ?_, ?_, ?_, ?_⟩ <;> dsimp only <;> omega
  · obtain ⟨h1, h2, h3, h4, h5, h6, h7, h8⟩ := valid_addDay h
    refine ⟨?_, ?_, ?_, ?_, ?_, ?_, ?_, ?_⟩ <;> dsimp only <;> omega

theorem valid_addMinute {t : DT} (h : DTValid t) : DTValid (addMinute t) := by
  unfold addMinute
  split
  · obtain ⟨h1, h2, h3, h4, h5, h6, h7, h8⟩ := h
    refine ⟨?_, ?_, ?_, ?_, ?_, ?_, ?_, ?_⟩ <;> dsimp only <;> omega
  · obtain ⟨h1, h2, h3, h4, h5, h6, h7, h8⟩ := valid_addHour h
    refine ⟨?_, ?_, ?_, ?_, ?_, ?_, ?_, ?_⟩ <;> dsimp only <;> omega

theorem valid_monthSkip {t : DT} (h : DTValid t) : DTValid (monthSkip t) := by
  have p1 := daysInMonth_pos (t.year + 1) 1
  have p2 := daysInMonth_pos t.year (t.month + 1)
  obtain ⟨h1, h2, h3, h4, h5, h6, h7, h8⟩ := h
  unfold monthSkip
  split
  · refine ⟨?_, ?_, ?_, ?_, ?_, ?_, ?_, ?_⟩ <;> dsimp only <;> omega
  · refine ⟨?_, ?_, ?_, ?_, ?_, ?_, ?_, ?_⟩ <;> dsimp only <;> omega

theorem valid_daySkip {t : DT} (h : DTValid t) : DTValid (daySkip t) := by
  obtain ⟨h1, h2, h3, h4, h5, h6, h7, h8⟩ := valid_addDay h
  unfold daySkip
  refine ⟨?_, ?_, ?_, ?_, ?_, ?_, ?_, ?_⟩ <;> dsimp only <;> omega

theorem valid_hourSkip {t : DT} (h : DTValid t) : DTValid (hourSkip t) := by
  obtain ⟨h1, h2, h3, h4, h5, h6, h7, h8⟩ := valid_addHour h
  unfold hourSkip
  refine ⟨?_, ?_, ?_, ?_, ?_, ?_, ?_, ?_⟩ <;> dsimp only <;> omega

theorem valid_setMinute {t : DT} (h : DTValid t) {m : Nat} (hm : m ≤ 59) :
    DTValid { t with minute := m } := by
  obtain ⟨h1, h2, h3, h4, h5, h6, h7, h8⟩ := h
  refine ⟨?_, ?_, ?_, ?_, ?_, ?_, ?_, ?_⟩ <;> dsimp only <;> omega

theorem addDay_hour (t : DT) : (addDay t).hour = t.hour := by
  unfold addDay
  split
  · rfl
  · split <;> rfl

theorem addDay_minute (t : DT) : (addDay t).minute = t.minute := by
  unfold addDay
  split
  · rfl
  · split <;> rfl

theorem addDay_second (t : DT) : (addDay t).second = t.second := by
  unfold addDay
  split
  · rfl
  · split <;> rfl

theorem addDay_micro (t : DT) : (addDay t).micro = t.micro := by
  unfold addDay
  split
  · rfl
  · split <;> rfl

theorem addHour_minute (t : DT) : (addHour t).minute = t.minute := by
  unfold addHour
  split
  · rfl
  · show (addDay t).minute = t.minute
    exact addDay_minute t

theorem addHour_second (t : DT) : (addHour t).second = t.second := by
  unfold addHour
  split
  · rfl
  · show (addDay t).second = t.second
    exact addDay_second t

theorem addHour_micro (t : DT) : (addHour t).micro = t.micro := by
  unfold addHour
  split
  · rfl
  · show (addDay t).micro = t.micro
    exact addDay_micro t

theorem addMinute_second (t : DT) : (addMinute t).second = t.second := by
  unfold addMinute
  split
  · rfl
  · show (addHour t).second = t.second
    exact addHour_second t

theorem addMinute_micro (t : DT) : (addMinute t).micro = t.micro := by
  unfold addMinute
  split
  · rfl
  · show (addHour t).micro = t.micro
    exact addHour_micro t

theorem monthSkip_second (t : DT) : (monthSkip t).second = t.second := by
  unfold monthSkip
  split <;> rfl

theorem monthSkip_micro (t : DT) : (monthSkip t).micro = t.micro := by
  unfold monthSkip
  split <;> rfl

theorem daySkip_second (t : DT) : (daySkip t).second = t.second := by
  show (addDay t).second = t.second
  exact addDay_second t

theorem daySkip_micro (t : DT) : (daySkip t).micro = t.micro := by
  show (addDay t).micro = t.micro
  exact addDay_micro t

theorem hourSkip_second (t : DT) : (hourSkip t).second = t.second := by
  show (addHour t).second = t.second
  exact addHour_second t

theorem hourSkip_micro (t : DT) : (hourSkip t).micro = t.micro := by
  show (addHour t).micro = t.micro
  exact addHour_micro t

theorem dayIdx_addDay {t : DT} (h : DTValid t) : dayIdx t + 1 ≤ dayIdx (addDay t) := by
  have p1 := daysInMonth_le t.year t.month
  obtain ⟨h1, h2, h3, h4, h5, h6, h7, h8⟩ := h
  unfold addDay dayIdx
  split
  · dsimp only; omega
  · split <;> dsimp only <;> omega

theorem secKey_addHour {t : DT} (h : DTValid t) : secKey t + 3600 ≤ secKey (addHour t) := by
  have hd := dayIdx_addDay h
  have hm := addDay_minute t
  have hs := addDay_second t
  obtain ⟨h1, h2, h3, h4, h5, h6, h7, h8⟩ := h
  unfold addHour
  split
  · unfold secKey dayIdx
    dsimp only
    omega
  · unfold secKey
    unfold dayIdx at hd ⊢
    dsimp only
    omega

theorem secKey_addMinute {t : DT} (h : DTValid t) : secKey t + 60 ≤ secKey (addMinute t) := by
  have hk := secKey_addHour h
  have hm := addHour_minute t
  have hs := addHour_second t
  obtain ⟨h1, h2, h3, h4, h5, h6, h7, h8⟩ := h
  unfold addMinute
  split
  · unfold secKey dayIdx
    dsimp only
    omega
  · unfold secKey at hk ⊢
    unfold dayIdx at hk ⊢
    dsimp only
    omega

theorem secKey_monthSkip {t : DT} (h : DTValid t) : secKey t < secKey (monthSkip t) := by
  have p1 := daysInMonth_le t.year t.month
  obtain ⟨h1, h2, h3, h4, h5, h6, h7, h8⟩ := h
  unfold monthSkip
  split
  · unfold secKey dayIdx
    dsimp only
    omega
  · unfold secKey dayIdx
    dsimp only
    omega

theorem secKey_daySkip {t : DT} (h : DTValid t) : secKey t < secKey (daySkip t) := by
  have hd := dayIdx_addDay h
  have hs := addDay_second t
  obtain ⟨h1, h2, h3, h4, h5, h6, h7, h8⟩ := h
  unfold daySkip secKey
  unfold dayIdx at hd ⊢
  dsimp only
  omega

theorem secKey_hourSkip {t : DT} (h : DTValid t) : secKey t < secKey (hourSkip t) := by
  have hk := secKey_addHour h
  have hm := addHour_minute t
  have hs := addHour_second t
  obtain ⟨h1, h2, h3, h4, h5, h6, h7, h8⟩ := h
  unfold hourSkip
  unfold secKey at hk ⊢
  unfold dayIdx at hk ⊢
  dsimp only
  omega

theorem secKey_setMinuteGt {t : DT} {m : Nat} (hgt : t.minute < m) :
    secKey t < secKey { t with minute := m } := by
  unfold secKey dayIdx
  dsimp only
  omega

theorem secKey_addHourSetMinute {t : DT} (h : DTValid t) (m : Nat) :
    secKey t < secKey { addHour t with minute := m } := by
  have hk := secKey_addHour h
  have hm := addHour_minute t
  have hs := addHour_second t
  obtain ⟨h1, h2, h3, h4, h5, h6, h7, h8⟩ := h
  unfold secKey at hk ⊢
  unfold dayIdx at hk ⊢
  dsimp only
  omega

theorem foldl_min_mem : ∀ (xs : List Nat) (x : Nat), xs.foldl Nat.min x ∈ x :: xs := by
  intro xs
  induction xs with
  | nil => intro x; simp [List.foldl]
  | cons y ys ih =>
    intro x
    have h := ih (Nat.min x y)
    simp only [List.foldl]
    rcases List.mem_cons.mp h with h1 | h1
    · rw [h1]
      rcases min_choice x y with h2 | h2
      · rw [show Nat.min x y = x from h2]
        exact List.mem_cons_self x (y :: ys)
      · rw [show Nat.min x y = y from h2]
        exact List.mem_cons_of_mem x (List.mem_cons_self y ys)
    · exact List.mem_cons_of_mem x (List.mem_cons_of_mem y h1)

theorem listMin_mem {l : List Nat} (h : l ≠ []) : listMin l ∈ l := by
  cases l with
  | nil => exact absurd rfl h
  | cons x xs =>
    simp only [listMin]
    exact foldl_min_mem xs x

theorem nextRunAux_sound (c : Cron) (hne : c.minute ≠ [])
    (hbound : ∀ m ∈ c.minute, m ≤ 59) :
    ∀ fuel t r, DTValid t → nextRunAux c fuel t = some r →
      secKey t ≤ secKey r ∧ r.second = t.second ∧ r.micro = t.micro ∧ DTValid r ∧
      r.month ∈ c.month ∧ r.day ∈ c.day ∧ pyWeekday r ∈ c.weekday ∧
      r.hour ∈ c.hour ∧ r.minute ∈ c.minute := by
  intro fuel
  induction fuel with
  | zero =>
    intro t r _ h
    simp [nextRunAux] at h
  | succ n ih =>
    intro t r hv h
    simp only [nextRunAux] at h
    split at h
    · rcases ih _ r (valid_monthSkip hv) h with ⟨k, s2, s3, hv', m1, m2, m3, m4, m5⟩
      exact ⟨le_trans (Nat.le_of_lt (secKey_monthSkip hv)) k,
        s2.trans (monthSkip_second t), s3.trans (monthSkip_micro t), hv', m1, m2, m3, m4, m5⟩
    · rename_i hmonth
      rw [not_not] at hmonth
      split at h
      · rcases ih _ r (valid_daySkip hv) h with ⟨k, s2, s3, hv', m1, m2, m3, m4, m5⟩
        exact ⟨le_trans (Nat.le_of_lt (secKey_daySkip hv)) k,
          s2.trans (daySkip_second t), s3.trans (daySkip_micro t), hv', m1, m2, m3, m4, m5⟩
      · rename_i hday
        rw [not_not] at hday
        split at h
        · rcases ih _ r (valid_daySkip hv) h with ⟨k, s2, s3, hv', m1, m2, m3, m4, m5⟩
          exact ⟨le_trans (Nat.le_of_lt (secKey_daySkip hv)) k,
            s2.trans (daySkip_second t), s3.trans (daySkip_micro t), hv', m1, m2, m3, m4, m5⟩
        · rename_i hwd
          rw [not_not] at hwd
          split at h
          · rcases ih _ r (valid_hourSkip hv) h with ⟨k, s2, s3, hv', m1, m2, m3, m4, m5⟩
            exact ⟨le_trans (Nat.le_of_lt (secKey_hourSkip hv)) k,
              s2.trans (hourSkip_second t), s3.trans (hourSkip_micro t), hv', m1, m2, m3, m4, m5⟩
          · rename_i hhour
            rw [not_not] at hhour
            split at h
            · split at h
              · rename_i hfilter
                have hmem := listMin_mem hfilter
                have hpair := List.mem_filter.mp hmem
                have hmemc : listMin (c.minute.filter (fun m => t.minute < m)) ∈ c.minute :=
                  hpair.1
                have hlt : t.minute < listMin (c.minute.filter (fun m => t.minute < m)) :=
                  of_decide_eq_true hpair.2
                have hle : listMin (c.minute.filter (fun m => t.minute < m)) ≤ 59 :=
                  hbound _ hmemc
                rcases ih _ r (valid_setMinute hv hle) h with ⟨k, s2, s3, hv', m1, m2, m3, m4, m5⟩
                exact ⟨le_trans (Nat.le_of_lt (secKey_setMinuteGt hlt)) k, s2, s3,
                  hv', m1, m2, m3, m4, m5⟩
              · have hmem : listMin c.minute ∈ c.minute := listMin_mem hne
                have hle : listMin c.minute ≤ 59 := hbound _ hmem
                rcases ih _ r (valid_setMinute (valid_addHour hv) hle) h with
                  ⟨k, s2, s3, hv', m1, m2, m3, m4, m5⟩
                exact ⟨le_trans (Nat.le_of_lt (secKey_addHourSetMinute hv (listMin c.minute))) k,
                  s2.trans (addHour_second t), s3.trans (addHour_micro t),
                  hv', m1, m2, m3, m4, m5⟩
            · rename_i hmin
              rw [not_not] at hmin
              obtain rfl : t = r := Option.some.inj h
              exact ⟨Nat.le_refl _, rfl, rfl, hv, hmonth, hday, hwd, hhour, hmin⟩

/-! ## Non-termination of the search loop on day/month combinations
that no calendar date satisfies -/

theorem daysInMonth_feb (y : Nat) : daysInMonth y 2 ≤ 29 := by
  unfold daysInMonth
  split
  · split <;> omega
  · rename_i hne
    exact absurd rfl hne

theorem nextRunAux_feb31 : ∀ fuel t, DTValid t →
    nextRunAux cronFeb31 fuel t = none := by
  intro fuel
  induction fuel with
  | zero => intro t _; rfl
  | succ n ih =>
    intro t hv
    have hfeb := daysInMonth_feb t.year
    simp only [nextRunAux]
    split
    · exact ih _ (valid_monthSkip hv)
    · rename_i hmonth
      rw [not_not] at hmonth
      have hm2 : t.month = 2 := by simpa [cronFeb31] using hmonth
      split
      · exact ih _ (valid_daySkip hv)
      · rename_i hday
        rw [not_not] at hday
        have hd31 : t.day = 31 := by simpa [cronFeb31] using hday
        exfalso
        obtain ⟨h1, h2, h3, h4, h5, h6, h7, h8⟩ := hv
        rw [hm2] at h4
        omega

/-! ## Parser lemmas -/

theorem mem_pyRange {a b x : Nat} (h : a ≤ b) : x ∈ pyRange a b ↔ a ≤ x ∧ x < b := by
  unfold pyRange
  rw [List.mem_range'_1]
  omega

theorem pyRange_ne_nil {a b : Nat} (h : a < b) : pyRange a b ≠ [] := by
  have : (pyRange a b).length = b - a := by simp [pyRange]
  intro hnil
  rw [hnil] at this
  simp at this
  omega

theorem pyRangeStep_count {lo hi st : Nat} (hst : 0 < st) (h : lo ≤ hi) :
    (hi + 1 - lo + st - 1) / st = (hi - lo) / st + 1 := by
  have h1 : hi + 1 - lo + st - 1 = (hi - lo) + st := by omega
  rw [h1, Nat.add_div_right _ hst]

theorem mem_pyRangeStep {lo hi st x : Nat} (hst : 0 < st) (h : lo ≤ hi) :
    x ∈ pyRangeStep lo (hi + 1) st ↔ ∃ i, x = lo + st * i ∧ x ≤ hi := by
  unfold pyRangeStep
  rw [List.mem_range', pyRangeStep_count hst h]
  constructor
  · rintro ⟨i, hi1, rfl⟩
    refine ⟨i, rfl, ?_⟩
    have h2 : i ≤ (hi - lo) / st := by omega
    have h3 : st * i ≤ st * ((hi - lo) / st) := Nat.mul_le_mul_left st h2
    have h4 : (hi - lo) / st * st ≤ hi - lo := Nat.div_mul_le_self (hi - lo) st
    have h5 : st * ((hi - lo) / st) = (hi - lo) / st * st := Nat.mul_comm _ _
    have h6 : i * st = st * i := Nat.mul_comm i st
    omega
  · rintro ⟨i, rfl, hle⟩
    refine ⟨i, ?_, rfl⟩
    have h2 : st * i ≤ hi - lo := by omega
    have h3 : i ≤ (hi - lo) / st := by
      rw [Nat.le_div_iff_mul_le hst]
      have h6 : i * st = st * i := Nat.mul_comm i st
      omega
    omega

theorem pyRangeStep_ne_nil {lo hi st : Nat} (hst : 0 < st) (h : lo ≤ hi) :
    pyRangeStep lo (hi + 1) st ≠ [] := by
  unfold pyRangeStep
  rw [pyRangeStep_count hst h]
  intro hnil
  have : (List.range' lo ((hi - lo) / st + 1) st).length = (hi - lo) / st + 1 :=
    List.length_range' _ _ _
  rw [hnil] at this
  simp at this

theorem mem_insertAsc {a x : Nat} : ∀ {l : List Nat}, x ∈ insertAsc a l ↔ x = a ∨ x ∈ l := by
  intro l
  induction l with
  | nil => simp [insertAsc]
  | cons y ys ih =>
    simp only [insertAsc]
    split
    · simp
    · rw [List.mem_cons, ih, List.mem_cons]
      tauto

theorem mem_sortAsc {x : Nat} : ∀ {l : List Nat}, x ∈ sortAsc l ↔ x ∈ l := by
  intro l
  induction l with
  | nil => simp [sortAsc]
  | cons y ys ih =>
    simp only [sortAsc]
    rw [mem_insertAsc, ih, List.mem_cons]

theorem mem_sortedSet {x : Nat} {l : List Nat} : x ∈ sortedSet l ↔ x ∈ l := by
  unfold sortedSet
  rw [mem_sortAsc, List.mem_dedup]

theorem sortedSet_ne_nil {l : List Nat} (h : l ≠ []) : sortedSet l ≠ [] := by
  cases l with
  | nil => exact absurd rfl h
  | cons y ys =>
    intro hnil
    have : y ∈ sortedSet (y :: ys) := mem_sortedSet.mpr (List.mem_cons_self y ys)
    rw [hnil] at this
    simp at this

theorem parseItems_ok {lo hi : Nat} :
    ∀ {items : List (List Char)} {vs : List Nat},
      parseItems lo hi items = Except.ok vs →
      vs.length = items.length ∧ ∀ x ∈ vs, lo ≤ x ∧ x ≤ hi := by
  intro items
  induction items with
  | nil =>
    intro vs h
    simp only [parseItems] at h
    obtain rfl : ([] : List Nat) = vs := Except.ok.inj h
    simp
  | cons item rest ih =>
    intro vs h
    simp only [parseItems] at h
    split at h
    · exact absurd h (by simp)
    · rename_i v hint
      split at h
      · exact absurd h (by simp)
      · rename_i hbnd
        cases hrest : parseItems lo hi rest with
        | error e =>
          rw [hrest] at h
          exact absurd h (by simp [Except.bind])
        | ok ws =>
          rw [hrest] at h
          simp only [Except.bind, pure] at h
          obtain rfl : v.toNat :: ws = vs := Except.ok.inj h
          obtain ⟨hlen, hb⟩ := ih hrest
          constructor
          · simp [hlen]
          · intro x hx
            rcases List.mem_cons.mp hx with rfl | hx
            · omega
            · exact hb x hx

theorem pySplitOn_ne_nil (sep : Char) : ∀ (cs acc : List Char),
    pySplitOn sep cs acc ≠ [] := by
  intro cs
  induction cs with
  | nil => intro acc; simp [pySplitOn]
  | cons c cs ih =>
    intro acc
    simp only [pySplitOn]
    split
    · simp
    · exact ih (c :: acc)

theorem parseField_ok {f : List Char} {lo hi : Nat} {l : List Nat}
    (hlohi : lo ≤ hi) (h : parseField f lo hi = Except.ok l) :
    l ≠ [] ∧ ∀ x ∈ l, lo ≤ x ∧ x ≤ hi := by
  unfold parseField at h
  split at h
  · obtain rfl : pyRange lo (hi + 1) = l := Except.ok.inj h
    refine ⟨pyRange_ne_nil (by omega), ?_⟩
    intro x hx
    have := (mem_pyRange (by omega)).mp hx
    omega
  · split at h
    · -- hyphen-range branch
      cases hsp : pySplitOn '-' f [] with
      | nil => rw [hsp] at h; simp at h
      | cons s rest =>
        cases rest with
        | nil => rw [hsp] at h; simp at h
        | cons e rest2 =>
          cases rest2 with
          | cons u us => rw [hsp] at h; simp at h
          | nil =>
            rw [hsp] at h
            dsimp only at h
            cases hi1 : pyInt s with
            | none => rw [hi1] at h; simp at h
            | some a =>
              cases hi2 : pyInt e with
              | none => rw [hi1, hi2] at h; simp at h
              | some b =>
                rw [hi1, hi2] at h
                dsimp only at h
                split at h
                · simp at h
                · rename_i hcond
                  push_neg at hcond
                  obtain rfl : pyRange a.toNat (b.toNat + 1) = l := Except.ok.inj h
                  refine ⟨pyRange_ne_nil (by omega), ?_⟩
                  intro x hx
                  have := (mem_pyRange (by omega)).mp hx
                  omega
    · split at h
      · -- comma-list branch
        cases hitems : parseItems lo hi (pySplitOn ',' f []) with
        | error e => rw [hitems] at h; simp [Except.map] at h
        | ok vs =>
          rw [hitems] at h
          simp only [Except.map] at h
          obtain rfl : sortedSet vs = l := Except.ok.inj h
          obtain ⟨hlen, hb⟩ := parseItems_ok hitems
          have hvs : vs ≠ [] := by
            intro hnil
            rw [hnil] at hlen
            cases hsp : pySplitOn ',' f [] with
            | nil => exact pySplitOn_ne_nil ',' f [] hsp
            | cons a as =>
              rw [hsp] at hlen
              simp at hlen
          refine ⟨sortedSet_ne_nil hvs, ?_⟩
          intro x hx
          exact hb x (mem_sortedSet.mp hx)
      · split at h
        · -- step branch
          cases hget : (splitStarSlash f []).get? 1 with
          | none => rw [hget] at h; simp at h
          | some s =>
            rw [hget] at h
            dsimp only at h
            cases hi1 : pyInt s with
            | none => rw [hi1] at h; simp at h
            | some st =>
              rw [hi1] at h
              dsimp only at h
              split at h
              · simp at h
              · rename_i hpos
                obtain rfl : pyRangeStep lo (hi + 1) st.toNat = l := Except.ok.inj h
                have hpos' : 0 < st.toNat := by omega
                refine ⟨pyRangeStep_ne_nil hpos' hlohi, ?_⟩
                intro x hx
                obtain ⟨i, rfl, hle⟩ := (mem_pyRangeStep hpos' hlohi).mp hx
                omega
        · -- single-value branch
          cases hi1 : pyInt f with
          | none => rw [hi1] at h; simp at h
          | some v =>
            rw [hi1] at h
            dsimp only at h
            split at h
            · simp at h
            · rename_i hbnd
              push_neg at hbnd
              obtain rfl : [v.toNat] = l := Except.ok.inj h
              refine ⟨by simp, ?_⟩
              intro x hx
              rcases List.mem_singleton.mp hx with rfl
              omega

theorem exceptBind_ok {α β ε : Type} (a : α) (f : α → Except ε β) :
    (Except.ok a >>= f : Except ε β) = f a := rfl

theorem exceptMap_ok {α β ε : Type} (g : α → β) (a : α) :
    (g <$> (Except.ok a : Except ε α) : Except ε β) = Except.ok (g a) := rfl

theorem parseExpression_fields {cs : List Char} {c : Cron}
    (h : parseExpression cs = Except.ok c) :
    ∃ p1 p2 p3 p4 p5, pySplitWs (pyStrip cs) [] = [p1, p2, p3, p4, p5] ∧
      parseField p1 0 59 = Except.ok c.minute ∧ parseField p2 0 23 = Except.ok c.hour ∧
      parseField p3 1 31 = Except.ok c.day ∧ parseField p4 1 12 = Except.ok c.month ∧
      parseField p5 0 6 = Except.ok c.weekday := by
  unfold parseExpression at h
  cases hsp : pySplitWs (pyStrip cs) [] with
  | nil => rw [hsp] at h; simp at h
  | cons q1 r1 =>
    cases r1 with
    | nil => rw [hsp] at h; simp at h
    | cons q2 r2 =>
      cases r2 with
      | nil => rw [hsp] at h; simp at h
      | cons q3 r3 =>
        cases r3 with
        | nil => rw [hsp] at h; simp at h
        | cons q4 r4 =>
          cases r4 with
          | nil => rw [hsp] at h; simp at h
          | cons q5 r5 =>
            cases r5 with
            | cons q6 r6 => rw [hsp] at h; simp at h
            | nil =>
              rw [hsp] at h
              dsimp only at h
              refine ⟨q1, q2, q3, q4, q5, rfl, ?_⟩
              cases h1 : parseField q1 0 59 with
              | error e =>
                rw [h1] at h
                exact Except.noConfusion (show Except.error e = Except.ok c from h)
              | ok v1 =>
                rw [h1] at h
                simp only [exceptBind_ok] at h
                cases h2 : parseField q2 0 23 with
                | error e =>
                  rw [h2] at h
                  exact Except.noConfusion (show Except.error e = Except.ok c from h)
                | ok v2 =>
                  rw [h2] at h
                  simp only [exceptBind_ok] at h
                  cases h3 : parseField q3 1 31 with
                  | error e =>
                    rw [h3] at h
                    exact Except.noConfusion (show Except.error e = Except.ok c from h)
                  | ok v3 =>
                    rw [h3] at h
                    simp only [exceptBind_ok] at h
                    cases h4 : parseField q4 1 12 with
                    | error e =>
                      rw [h4] at h
                      exact Except.noConfusion (show Except.error e = Except.ok c from h)
                    | ok v4 =>
                      rw [h4] at h
                      simp only [exceptBind_ok] at h
                      cases h5 : parseField q5 0 6 with
                      | error e =>
                        rw [h5] at h
                        exact Except.noConfusion (show Except.error e = Except.ok c from h)
                      | ok v5 =>
                        rw [h5] at h
                        simp only [exceptBind_ok, exceptMap_ok] at h
                        obtain rfl : (⟨v1, v2, v3, v4, v5⟩ : Cron) = c := Except.ok.inj h
                        exact ⟨rfl, rfl, rfl, rfl, rfl⟩

theorem valid_floor {base : DT} (h : DTValid base) :
    DTValid { base with second := 0, micro := 0 } := by
  obtain ⟨h1, h2, h3, h4, h5, h6, h7, h8⟩ := h
  refine ⟨?_, ?_, ?_, ?_, ?_, ?_, ?_, ?_⟩ <;> dsimp only <;> omega

/-! ## Claim theorems -/

/-- C1: the spec and the in-code comment document the 0 = Sunday weekday
convention, under which 0 9 * * 1-5 should fire Monday 2024-01-01 09:00
and not Saturday 2024-01-06.  The matching loop instead tests Python's
Monday-based weekday() against the parsed set, so from 08:59 on Monday
2024-01-01 it skips to Tuesday 09:00, while from Saturday morning it
fires at Saturday 09:00 — an instant whose Sunday-based weekday (6) is
outside the parsed set {1..5}. -/
theorem cron_weekday_convention_bug :
    parseCron "0 9 * * 1-5" = Except.ok cron195 ∧
    getNextRunTime cron195 ⟨2024, 1, 1, 8, 59, 0, 0⟩ 50 =
      some ⟨2024, 1, 2, 9, 0, 0, 0⟩ ∧
    getNextRunTime cron195 ⟨2024, 1, 6, 8, 0, 0, 0⟩ 50 =
      some ⟨2024, 1, 6, 9, 0, 0, 0⟩ ∧
    sundayWeekday ⟨2024, 1, 1, 9, 0, 0, 0⟩ = 1 ∧ (1 : Nat) ∈ cron195.weekday ∧
    sundayWeekday ⟨2024, 1, 6, 9, 0, 0, 0⟩ = 6 ∧ (6 : Nat) ∉ cron195.weekday := by
  refine ⟨rfl, by decide, by decide, by decide, by decide, by decide, by decide⟩

/-- C2: the expression 0 0 31 2 * is accepted by the parser, but
get_next_run_time never returns on it: no valid date has month 2 and
day 31, so the search loop hops from February to February forever.  The
fuel parameter counts loop iterations; the result is none for every
fuel. -/
theorem cron_feb31_loop_never_returns :
    parseCron "0 0 31 2 *" = Except.ok cronFeb31 ∧
    ∀ fuel : Nat, getNextRunTime cronFeb31 ⟨2024, 1, 1, 0, 0, 0, 0⟩ fuel = none := by
  refine ⟨rfl, ?_⟩
  intro fuel
  exact nextRunAux_feb31 fuel _ (by decide)

/-- C3: for every expression accepted by the parser and every valid base
instant, whenever the search loop returns a value (the loop is partial,
see C2; the fuel parameter counts iterations), that value is strictly
after the base instant, has zero seconds and microseconds, and has
minute, hour, day, month and weekday each in the corresponding parsed
set (the weekday as the code computes it, Python weekday()).  For the
expression */5 * * * * and base 2024-01-01T00:00:00 the result is
2024-01-01T00:05:00. -/
theorem nextRunTime_sound_and_step5 :
    (∀ (s : String) (c : Cron) (base : DT) (fuel : Nat) (r : DT),
        parseCron s = Except.ok c → DTValid base →
        getNextRunTime c base fuel = some r →
        dtKey base < dtKey r ∧ r.second = 0 ∧ r.micro = 0 ∧
        r.minute ∈ c.minute ∧ r.hour ∈ c.hour ∧ r.day ∈ c.day ∧
        r.month ∈ c.month ∧ pyWeekday r ∈ c.weekday) ∧
    parseCron "*/5 * * * *" = Except.ok cronStep5 ∧
    getNextRunTime cronStep5 ⟨2024, 1, 1, 0, 0, 0, 0⟩ 10 =
      some ⟨2024, 1, 1, 0, 5, 0, 0⟩ := by
  refine ⟨?_, rfl, by decide⟩
  intro s c base fuel r hp hv hrun
  obtain ⟨p1, p2, p3, p4, p5, hsp, h1, h2, h3, h4, h5⟩ := parseExpression_fields hp
  obtain ⟨hne, hbound⟩ := parseField_ok (by omega) h1
  have hfv : DTValid { base with second := 0, micro := 0 } := valid_floor hv
  have hsv : DTValid (addMinute { base with second := 0, micro := 0 }) := valid_addMinute hfv
  have hsound := nextRunAux_sound c hne (fun m hm => (hbound m hm).2) fuel _ r hsv hrun
  obtain ⟨hk, hs2, hs3, hvr, m1, m2, m3, m4, m5⟩ := hsound
  have hsec : (addMinute { base with second := 0, micro := 0 }).second = 0 := by
    rw [addMinute_second]
  have hmic : (addMinute { base with second := 0, micro := 0 }).micro = 0 := by
    rw [addMinute_micro]
  have hfk : secKey { base with second := 0, micro := 0 } + base.second = secKey base := by
    unfold secKey dayIdx
    dsimp only
    omega
  have hmk := secKey_addMinute hfv
  obtain ⟨g1, g2, g3, g4, g5, g6, g7, g8⟩ := hv
  refine ⟨?_, hs2.trans hsec, hs3.trans hmic, m5, m4, m2, m1, m3⟩
  unfold dtKey
  have hrm : r.micro = 0 := hs3.trans hmic
  omega

/-- Witness for C3 at the expression */5 * * * * and base
2024-01-01T00:00:00, discharging all three hypotheses concretely. -/
theorem nextRunTime_sound_witness :
    dtKey ⟨2024, 1, 1, 0, 0, 0, 0⟩ < dtKey ⟨2024, 1, 1, 0, 5, 0, 0⟩ ∧
    (⟨2024, 1, 1, 0, 5, 0, 0⟩ : DT).second = 0 ∧
    (⟨2024, 1, 1, 0, 5, 0, 0⟩ : DT).micro = 0 ∧
    (⟨2024, 1, 1, 0, 5, 0, 0⟩ : DT).minute ∈ cronStep5.minute ∧
    (⟨2024, 1, 1, 0, 5, 0, 0⟩ : DT).hour ∈ cronStep5.hour ∧
    (⟨2024, 1, 1, 0, 5, 0, 0⟩ : DT).day ∈ cronStep5.day ∧
    (⟨2024, 1, 1, 0, 5, 0, 0⟩ : DT).month ∈ cronStep5.month ∧
    pyWeekday ⟨2024, 1, 1, 0, 5, 0, 0⟩ ∈ cronStep5.weekday :=
  nextRunTime_sound_and_step5.1 "*/5 * * * *" cronStep5 ⟨2024, 1, 1, 0, 0, 0, 0⟩ 10
    ⟨2024, 1, 1, 0, 5, 0, 0⟩ rfl (by decide) (by decide)

theorem runAttempts_terminal (maxRetries : Nat) (oracle : Nat → AttemptOutcome) (now : Nat) :
    ∀ fuel rc e, rc ≤ maxRetries → rc + fuel = maxRetries + 1 →
      ((runAttempts maxRetries oracle now fuel rc e).1.status = ExecStatus.completed ∨
        (runAttempts maxRetries oracle now fuel rc e).1.status = ExecStatus.failed) ∧
      (runAttempts maxRetries oracle now fuel rc e).1.endTime = some now ∧
      (runAttempts maxRetries oracle now fuel rc e).1.retryCount ≤ maxRetries ∧
      (runAttempts maxRetries oracle now fuel rc e).2 ≤ maxRetries + 1 ∧
      (runAttempts maxRetries oracle now fuel rc e).1.startTime = e.startTime := by
  intro fuel
  induction fuel with
  | zero => intro rc e h1 h2; omega
  | succ n ih =>
    intro rc e h1 h2
    simp only [runAttempts]
    split
    · -- oracle rc = script pr
      split
      · -- success
        refine ⟨Or.inl rfl, rfl, ?_, ?_, rfl⟩ <;> dsimp only <;> omega
      · split
        · -- retry
          exact ih (rc + 1) e (by omega) (by omega)
        · -- exhausted: fail
          refine ⟨Or.inr rfl, rfl, ?_, ?_, rfl⟩ <;> dsimp only <;> omega
    · -- oracle rc = exc msg
      split
      · exact ih (rc + 1) e (by omega) (by omega)
      · refine ⟨Or.inr rfl, rfl, ?_, ?_, rfl⟩ <;> dsimp only <;> omega

/-- C4: with max_retries = 2 and work failing every attempt,
execute_task yields status failed, retry_count 2 and exactly 3 attempts;
with work failing twice then succeeding, status completed and
retry_count 2. -/
theorem executor_retry_accounting :
    (executeTask ⟨"t1", "T", "s.py", [], none, 2, 1⟩
        (fun _ => AttemptOutcome.script (ProcResult.finished 1 "" "boom")) 100
        (initExecution "e1" "t1" "T")).1.status = ExecStatus.failed ∧
    (executeTask ⟨"t1", "T", "s.py", [], none, 2, 1⟩
        (fun _ => AttemptOutcome.script (ProcResult.finished 1 "" "boom")) 100
        (initExecution "e1" "t1" "T")).1.retryCount = 2 ∧
    (executeTask ⟨"t1", "T", "s.py", [], none, 2, 1⟩
        (fun _ => AttemptOutcome.script (ProcResult.finished 1 "" "boom")) 100
        (initExecution "e1" "t1" "T")).2 = 3 ∧
    (executeTask ⟨"t1", "T", "s.py", [], none, 2, 1⟩
        (fun n => if n < 2 then AttemptOutcome.script (ProcResult.finished 1 "" "boom")
          else AttemptOutcome.script (ProcResult.finished 0 "ok" "")) 100
        (initExecution "e1" "t1" "T")).1.status = ExecStatus.completed ∧
    (executeTask ⟨"t1", "T", "s.py", [], none, 2, 1⟩
        (fun n => if n < 2 then AttemptOutcome.script (ProcResult.finished 1 "" "boom")
          else AttemptOutcome.script (ProcResult.finished 0 "ok" "")) 100
        (initExecution "e1" "t1" "T")).1.retryCount = 2 := by
  exact ⟨rfl, rfl, rfl, rfl, rfl⟩

/-- C10: for every task (max_retries is a Nat, hence nonnegative), every
attempt-outcome oracle and every start instant, execute_task returns a
record in a terminal state with end_time set, retry_count at most
max_retries and at most max_retries + 1 attempts; _execute_script
converts a timeout or a raised launch error into the failure return
(-1, empty stdout, message). -/
theorem executor_totality :
    (∀ (t : SchedTask) (oracle : Nat → AttemptOutcome) (now : Nat) (eid tid tname : String),
      ((executeTask t oracle now (initExecution eid tid tname)).1.status = ExecStatus.completed ∨
        (executeTask t oracle now (initExecution eid tid tname)).1.status = ExecStatus.failed) ∧
      (executeTask t oracle now (initExecution eid tid tname)).1.endTime = some now ∧
      (executeTask t oracle now (initExecution eid tid tname)).1.startTime = some now ∧
      (executeTask t oracle now (initExecution eid tid tname)).1.retryCount ≤ t.maxRetries ∧
      (executeTask t oracle now (initExecution eid tid tname)).2 ≤ t.maxRetries + 1) ∧
    executeScript ProcResult.timedOut =
      (-1, "", "Script execution timed out after 3600 seconds") ∧
    ∀ msg, executeScript (ProcResult.raised msg) =
      (-1, "", "Script execution failed: " ++ msg) := by
  refine ⟨?_, rfl, fun msg => rfl⟩
  intro t oracle now eid tid tname
  obtain ⟨hst, hend, hrc, hat, hstart⟩ :=
    runAttempts_terminal t.maxRetries oracle now (t.maxRetries + 1) 0
      { (initExecution eid tid tname).startAt now with
        logPath := some ("logs/" ++ ((initExecution eid tid tname).startAt now).executionId ++ ".log") }
      (by omega) (by omega)
  exact ⟨hst, hend, hstart.trans rfl, hrc, hat⟩

/-- C5 counterexample: the Task class has no timeout attribute; the
subprocess ceiling is the constant 3600 (executor.py line 50), which is
not bounded by the spec-level per-task timeout (here 5 seconds). -/
theorem executor_timeout_counterexample :
    scriptTimeoutCeiling = 3600 ∧
    ¬ scriptTimeoutCeiling ≤ (SpecTask.mk ⟨"t1", "T", "s.py", [], none, 0, 60⟩ 5).timeout := by
  exact ⟨rfl, by decide⟩

/-- C5 amended: every attempt is bounded by the fixed 3600-second
ceiling regardless of the task (the Task class has no timeout field);
exceeding it is converted by _execute_script into the failure return
(-1, empty stdout, timeout message) and retried under the same retry
policy as any other failure. -/
theorem executor_timeout_fixed_ceiling :
    (∀ _st : SpecTask, scriptTimeoutCeiling = 3600) ∧
    executeScript ProcResult.timedOut =
      (-1, "", "Script execution timed out after 3600 seconds") ∧
    (executeTask ⟨"t1", "T", "s.py", [], none, 1, 1⟩
        (fun n => if n = 0 then AttemptOutcome.script ProcResult.timedOut
          else AttemptOutcome.script (ProcResult.finished 0 "ok" "")) 100
        (initExecution "e1" "t1" "T")).1.status = ExecStatus.completed ∧
    (executeTask ⟨"t1", "T", "s.py", [], none, 1, 1⟩
        (fun n => if n = 0 then AttemptOutcome.script ProcResult.timedOut
          else AttemptOutcome.script (ProcResult.finished 0 "ok" "")) 100
        (initExecution "e1" "t1" "T")).1.retryCount = 1 ∧
    (executeTask ⟨"t1", "T", "s.py", [], none, 1, 1⟩
        (fun _ => AttemptOutcome.script ProcResult.timedOut) 100
        (initExecution "e1" "t1" "T")).1.status = ExecStatus.failed := by
  exact ⟨fun _ => rfl, rfl, rfl, rfl, rfl⟩

/-- C6 counterexample: the transition methods of TaskExecution are
unguarded field assignments, so a terminal record is not final: calling
cancel() after complete() changes the status from completed to cancelled
and moves end_time from 20 to 30. -/
theorem execution_terminal_not_final :
    ((((initExecution "e" "t" "T").startAt 10).completeAt 20 (some "r")).status =
      ExecStatus.completed) ∧
    (((((initExecution "e" "t" "T").startAt 10).completeAt 20 (some "r")).cancelAt 30).status =
      ExecStatus.cancelled) ∧
    ((((initExecution "e" "t" "T").startAt 10).completeAt 20 (some "r")).endTime = some 20) ∧
    (((((initExecution "e" "t" "T").startAt 10).completeAt 20 (some "r")).cancelAt 30).endTime =
      some 30) := by
  exact ⟨rfl, rfl, rfl, rfl⟩

/-- C6 amended: under the executor's call pattern — one start() followed
by exactly one terminal operation — start_time is set by start() and
untouched afterwards, end_time and duration are set by the terminal
operation, and the resulting status is terminal; the methods themselves
do not guard against further calls (see the counterexample). -/
theorem execution_lifecycle_executor_discipline :
    ∀ (eid tid tname : String) (t1 t2 : Nat) (op : TerminalOp),
      (initExecution eid tid tname).startTime = none ∧
      (initExecution eid tid tname).status = ExecStatus.waiting ∧
      ((initExecution eid tid tname).startAt t1).startTime = some t1 ∧
      ((initExecution eid tid tname).startAt t1).status = ExecStatus.running ∧
      ((initExecution eid tid tname).startAt t1).endTime = none ∧
      ((initExecution eid tid tname).startAt t1).duration = none ∧
      (applyTerminal op ((initExecution eid tid tname).startAt t1) t2).startTime = some t1 ∧
      (applyTerminal op ((initExecution eid tid tname).startAt t1) t2).endTime = some t2 ∧
      isTerminalStatus (applyTerminal op ((initExecution eid tid tname).startAt t1) t2).status =
        true ∧
      (applyTerminal op ((initExecution eid tid tname).startAt t1) t2).duration =
        some ((t2 : Int) - (t1 : Int)) := by
  intro eid tid tname t1 t2 op
  cases op <;> exact ⟨rfl, rfl, rfl, rfl, rfl, rfl, rfl, rfl, rfl, rfl⟩

/-- C7: persistence failure does not roll back the in-memory registry:
save_tasks swallows every write error and leaves state untouched either
way, and add_task inserts into the in-memory dict before persisting, so
after a failed persist (persistOk = false) the new task is still in the
map — the map is not left as it was before the operation. -/
theorem taskManager_mutation_survives_persist_failure :
    (∀ (st : TMState) (ok : Bool), saveTasks st ok = st) ∧
    tmAddTask ⟨[]⟩ "backup" "s.py" "" "" true false =
      some (⟨[("task_1", ⟨"task_1", "backup", "s.py", "", "", true⟩)]⟩,
        ⟨"task_1", "backup", "s.py", "", "", true⟩) ∧
    (⟨[("task_1", ⟨"task_1", "backup", "s.py", "", "", true⟩)]⟩ : TMState) ≠ ⟨[]⟩ := by
  exact ⟨fun _ _ => rfl, rfl, by decide⟩

/-! ## History sorting lemmas -/

theorem insertDesc_perm (r : HistRec) : ∀ l : List HistRec, (insertDesc r l).Perm (r :: l) := by
  intro l
  induction l with
  | nil => exact List.Perm.refl _
  | cons x xs ih =>
    simp only [insertDesc]
    split
    · exact List.Perm.refl _
    · exact (List.Perm.cons x ih).trans (List.Perm.swap r x xs)

theorem sortDesc_perm : ∀ l : List HistRec, (sortDesc l).Perm l := by
  intro l
  induction l with
  | nil => exact List.Perm.refl _
  | cons x xs ih =>
    simp only [sortDesc]
    exact (insertDesc_perm x (sortDesc xs)).trans (List.Perm.cons x ih)

theorem insertDesc_pairwise (r : HistRec) :
    ∀ l : List HistRec, l.Pairwise (fun a b => startKey b ≤ startKey a) →
      (insertDesc r l).Pairwise (fun a b => startKey b ≤ startKey a) := by
  intro l
  induction l with
  | nil => intro _; simp [insertDesc]
  | cons x xs ih =>
    intro h
    rw [List.pairwise_cons] at h
    obtain ⟨hx, hxs⟩ := h
    simp only [insertDesc]
    split
    · rename_i hle
      rw [List.pairwise_cons]
      refine ⟨?_, List.pairwise_cons.mpr ⟨hx, hxs⟩⟩
      intro b hb
      rcases List.mem_cons.mp hb with rfl | hb
      · exact hle
      · exact le_trans (hx b hb) hle
    · rename_i hgt
      rw [List.pairwise_cons]
      refine ⟨?_, ih hxs⟩
      intro b hb
      have hb' : b ∈ r :: xs := (insertDesc_perm r xs).mem_iff.mp hb
      rcases List.mem_cons.mp hb' with rfl | hb'
      · omega
      · exact hx b hb'

theorem sortDesc_pairwise : ∀ l : List HistRec,
    (sortDesc l).Pairwise (fun a b => startKey b ≤ startKey a) := by
  intro l
  induction l with
  | nil => simp [sortDesc]
  | cons x xs ih =>
    simp only [sortDesc]
    exact insertDesc_pairwise x (sortDesc xs) ih

/-- C9: filtering the history by status failed returns exactly the
stored records whose status string equals failed (as a permutation of
the filter of the input multiset), in descending start-time order
(records with no start time sort as the minimal instant, as in the
source). -/
theorem history_filter_failed :
    ∀ records : List HistRec,
      (filterExecutions records none (some "failed") none none).Perm
        (records.filter (fun r => r.status = "failed")) ∧
      (filterExecutions records none (some "failed") none none).Pairwise
        (fun a b => startKey b ≤ startKey a) := by
  intro records
  have hred : filterExecutions records none (some "failed") none none =
      (sortDesc records).filter (fun e => some e.status = some "failed") := by
    simp [filterExecutions, strTruthy, getAllExecutions]
  constructor
  · rw [hred]
    have hcongr : (sortDesc records).filter (fun e => some e.status = some "failed") =
        (sortDesc records).filter (fun r => r.status = "failed") := by
      apply List.filter_congr
      intro a _
      simp
    rw [hcongr]
    exact (sortDesc_perm records).filter (fun r => r.status = "failed")
  · rw [hred]
    exact (sortDesc_pairwise records).filter _

/-! ## Token-shape lemmas for the field parser -/

theorem contains_eq_decide (l : List Char) (c : Char) : l.contains c = decide (c ∈ l) := by
  simp [List.contains]

theorem pySplitOn_no_sep {sep : Char} : ∀ {cs : List Char}, sep ∉ cs →
    ∀ acc, pySplitOn sep cs acc = [acc.reverse ++ cs] := by
  intro cs
  induction cs with
  | nil => intro _ acc; simp [pySplitOn]
  | cons c cs ih =>
    intro h acc
    have hc : c ≠ sep := fun hc => h (hc ▸ List.mem_cons_self c cs)
    have hcs : sep ∉ cs := fun hm => h (List.mem_cons_of_mem c hm)
    simp only [pySplitOn, if_neg (fun he => hc he)]
    rw [ih hcs (c :: acc)]
    simp

theorem pySplitOn_append {sep : Char} : ∀ {s1 : List Char}, sep ∉ s1 →
    ∀ (s2 acc : List Char),
      pySplitOn sep (s1 ++ sep :: s2) acc = (acc.reverse ++ s1) :: pySplitOn sep s2 [] := by
  intro s1
  induction s1 with
  | nil =>
    intro _ s2 acc
    simp [pySplitOn]
  | cons c s1 ih =>
    intro h s2 acc
    have hc : c ≠ sep := fun hc => h (hc ▸ List.mem_cons_self c s1)
    have hcs : sep ∉ s1 := fun hm => h (List.mem_cons_of_mem c hm)
    simp only [List.cons_append, pySplitOn, if_neg (fun he => hc he)]
    simp only [List.append_eq]
    rw [ih hcs s2 (c :: acc)]
    simp

theorem pySplitOn_pair {sep : Char} {s1 s2 : List Char} (h1 : sep ∉ s1) (h2 : sep ∉ s2) :
    pySplitOn sep (s1 ++ sep :: s2) [] = [s1, s2] := by
  rw [pySplitOn_append h1 s2 []]
  rw [pySplitOn_no_sep h2 []]
  simp

theorem joinSep_two (sep : Char) (p : List Char) (q : List Char) (ps : List (List Char)) :
    joinSep sep (p :: q :: ps) = p ++ sep :: joinSep sep (q :: ps) := by
  rfl

theorem mem_joinSep {sep ch : Char} : ∀ {ps : List (List Char)},
    ch ∈ joinSep sep ps → ch = sep ∨ ∃ p ∈ ps, ch ∈ p := by
  intro ps
  induction ps with
  | nil => intro h; simp [joinSep] at h
  | cons p ps ih =>
    intro h
    cases ps with
    | nil =>
      simp only [joinSep] at h
      exact Or.inr ⟨p, List.mem_cons_self p [], h⟩
    | cons q ps2 =>
      rw [joinSep_two] at h
      rcases List.mem_append.mp h with hp | hq
      · exact Or.inr ⟨p, List.mem_cons_self p (q :: ps2), hp⟩
      · rcases List.mem_cons.mp hq with rfl | hq2
        · exact Or.inl rfl
        · rcases ih hq2 with hs | ⟨r, hr, hcr⟩
          · exact Or.inl hs
          · exact Or.inr ⟨r, List.mem_cons_of_mem p hr, hcr⟩

theorem pySplitOn_joinSep {sep : Char} : ∀ {ps : List (List Char)}, ps ≠ [] →
    (∀ p ∈ ps, sep ∉ p) → pySplitOn sep (joinSep sep ps) [] = ps := by
  intro ps
  induction ps with
  | nil => intro h _; exact absurd rfl h
  | cons p ps ih =>
    intro _ hall
    cases ps with
    | nil =>
      simp only [joinSep]
      rw [pySplitOn_no_sep (hall p (List.mem_cons_self p [])) []]
      simp
    | cons q ps2 =>
      rw [joinSep_two]
      rw [pySplitOn_append (hall p (List.mem_cons_self p (q :: ps2))) _ []]
      rw [ih (by simp) (fun r hr => hall r (List.mem_cons_of_mem p hr))]
      simp

theorem hasStarSlash_false_of_no_star : ∀ {cs : List Char}, '*' ∉ cs →
    hasStarSlash cs = false := by
  intro cs
  induction cs with
  | nil => intro _; rfl
  | cons c cs ih =>
    intro h
    cases cs with
    | nil => rfl
    | cons d cs2 =>
      have hc : c ≠ '*' := fun hc => h (hc ▸ List.mem_cons_self c (d :: cs2))
      have hcd : ¬(c = '*' ∧ d = '/') := fun hp => hc hp.1
      simp only [hasStarSlash, if_neg hcd]
      exact ih (fun hm => h (List.mem_cons_of_mem c hm))

theorem splitStarSlash_no : ∀ {cs : List Char}, hasStarSlash cs = false →
    ∀ acc, splitStarSlash cs acc = [acc.reverse ++ cs] := by
  intro cs
  induction cs with
  | nil => intro _ acc; simp [splitStarSlash]
  | cons c cs ih =>
    intro h acc
    cases cs with
    | nil => simp [splitStarSlash]
    | cons d cs2 =>
      by_cases hcd : c = '*' ∧ d = '/'
      · rw [show hasStarSlash (c :: d :: cs2) = true by simp [hasStarSlash, if_pos hcd]] at h
        exact absurd h (by simp)
      · simp only [hasStarSlash, if_neg hcd] at h
        simp only [splitStarSlash, if_neg hcd]
        rw [ih h (c :: acc)]
        simp

theorem splitStarSlash_head {s : List Char} (h : hasStarSlash s = false) :
    splitStarSlash ('*' :: '/' :: s) [] = [[], s] := by
  have hcd : ('*' : Char) = '*' ∧ ('/' : Char) = '/' := ⟨rfl, rfl⟩
  simp only [splitStarSlash, if_pos hcd]
  rw [splitStarSlash_no h []]
  simp

theorem hasStarSlash_head (s : List Char) : hasStarSlash ('*' :: '/' :: s) = true := by
  simp [hasStarSlash]

theorem mem_dropWhile_of {p : Char → Bool} {ch : Char} (hch : p ch = false) :
    ∀ {l : List Char}, ch ∈ l → ch ∈ l.dropWhile p := by
  intro l
  induction l with
  | nil => intro h; simp at h
  | cons c l ih =>
    intro h
    simp only [List.dropWhile]
    split
    · rename_i hpc
      rcases List.mem_cons.mp h with rfl | hm
      · rw [hch] at hpc; exact absurd hpc (by simp)
      · exact ih hm
    · exact h

theorem mem_pyStrip {ch : Char} (hws : isWs ch = false) {cs : List Char} (h : ch ∈ cs) :
    ch ∈ pyStrip cs := by
  unfold pyStrip
  have h1 := mem_dropWhile_of hws h
  have h2 : ch ∈ (cs.dropWhile isWs).reverse := List.mem_reverse.mpr h1
  have h3 := mem_dropWhile_of hws h2
  exact List.mem_reverse.mpr h3

theorem digitsVal_none {ch : Char} (hd : ch.isDigit = false) :
    ∀ {ds : List Char}, ch ∈ ds → digitsVal ds = none := by
  intro ds h
  unfold digitsVal
  rw [if_neg (by intro hnil; rw [hnil] at h; simp at h)]
  rw [if_neg ?_]
  intro hall
  have := List.all_eq_true.mp hall ch h
  rw [hd] at this
  exact absurd this (by simp)

theorem pyInt_none_of_mem {ch : Char} (hws : isWs ch = false) (hd : ch.isDigit = false)
    (hplus : ch ≠ '+') (hminus : ch ≠ '-') : ∀ {cs : List Char}, ch ∈ cs →
    pyInt cs = none := by
  intro cs h
  have hs := mem_pyStrip hws h
  unfold pyInt
  cases hps : pyStrip cs with
  | nil => rw [hps] at hs; simp at hs
  | cons c ds =>
    rw [hps] at hs
    simp only [List.head?_cons, List.tail_cons]
    rcases List.mem_cons.mp hs with rfl | hin
    · rw [if_neg (by simp [hplus]), if_neg (by simp [hminus])]
      rw [digitsVal_none hd (List.mem_cons_self ch ds)]
      rfl
    · by_cases hc1 : c = '+'
      · rw [if_pos (by simp [hc1])]
        rw [digitsVal_none hd hin]
        rfl
      · rw [if_neg (by simp [hc1])]
        by_cases hc2 : c = '-'
        · rw [if_pos (by simp [hc2])]
          rw [digitsVal_none hd hin]
          rfl
        · rw [if_neg (by simp [hc2])]
          rw [digitsVal_none hd (List.mem_cons_of_mem c hin)]
          rfl

theorem contains_false {c : Char} {l : List Char} (h : c ∉ l) : ¬ (l.contains c = true) := by
  rw [contains_eq_decide]
  simp [h]

theorem contains_true {c : Char} {l : List Char} (h : c ∈ l) : l.contains c = true := by
  rw [contains_eq_decide]
  simp [h]

theorem notMem_append_cons {c d : Char} {s1 s2 : List Char}
    (h1 : c ∉ s1) (hd : c ≠ d) (h2 : c ∉ s2) : c ∉ s1 ++ d :: s2 := by
  intro h
  rcases List.mem_append.mp h with h | h
  · exact h1 h
  · rcases List.mem_cons.mp h with h | h
    · exact hd h
    · exact h2 h

theorem parseField_star (lo hi : Nat) : parseField ['*'] lo hi = Except.ok (pyRange lo (hi + 1)) :=
  rfl

theorem parseField_single {f : List Char} {v : Int} {lo hi : Nat}
    (hint : pyInt f = some v) (hm : '-' ∉ f) (hcm : ',' ∉ f) (hss : hasStarSlash f = false)
    (hstar : f ≠ ['*']) (hlo : (lo : Int) ≤ v) (hhi : v ≤ (hi : Int)) :
    parseField f lo hi = Except.ok [v.toNat] := by
  unfold parseField
  rw [if_neg hstar, if_neg (contains_false hm), if_neg (contains_false hcm),
    if_neg (by rw [hss]; simp)]
  rw [hint]
  dsimp only
  rw [if_neg (by omega)]

theorem parseField_single_oob {f : List Char} {v : Int} {lo hi : Nat}
    (hint : pyInt f = some v) (hm : '-' ∉ f) (hcm : ',' ∉ f) (hss : hasStarSlash f = false)
    (hstar : f ≠ ['*']) (hv : v < (lo : Int) ∨ (hi : Int) < v) :
    parseField f lo hi = Except.error "field value out of range" := by
  unfold parseField
  rw [if_neg hstar, if_neg (contains_false hm), if_neg (contains_false hcm),
    if_neg (by rw [hss]; simp)]
  rw [hint]
  dsimp only
  rw [if_pos (by omega)]

theorem parseField_range {s1 s2 : List Char} {a b : Int} {lo hi : Nat}
    (h1 : pyInt s1 = some a) (h2 : pyInt s2 = some b)
    (hm1 : '-' ∉ s1) (hm2 : '-' ∉ s2)
    (hla : (lo : Int) ≤ a) (hab : a ≤ b) (hbh : b ≤ (hi : Int)) :
    parseField (s1 ++ '-' :: s2) lo hi = Except.ok (pyRange a.toNat (b.toNat + 1)) := by
  have hcont : '-' ∈ s1 ++ '-' :: s2 :=
    List.mem_append.mpr (Or.inr (List.mem_cons_self '-' s2))
  unfold parseField
  rw [if_neg (by intro heq; rw [heq] at hcont; simp at hcont), if_pos (contains_true hcont)]
  rw [pySplitOn_pair hm1 hm2]
  dsimp only
  rw [h1, h2]
  dsimp only
  rw [if_neg (by omega)]

theorem parseField_range_bad {s1 s2 : List Char} {a b : Int} {lo hi : Nat}
    (h1 : pyInt s1 = some a) (h2 : pyInt s2 = some b)
    (hm1 : '-' ∉ s1) (hm2 : '-' ∉ s2) (hba : b < a) :
    parseField (s1 ++ '-' :: s2) lo hi = Except.error "range out of bounds" := by
  have hcont : '-' ∈ s1 ++ '-' :: s2 :=
    List.mem_append.mpr (Or.inr (List.mem_cons_self '-' s2))
  unfold parseField
  rw [if_neg (by intro heq; rw [heq] at hcont; simp at hcont), if_pos (contains_true hcont)]
  rw [pySplitOn_pair hm1 hm2]
  dsimp only
  rw [h1, h2]
  dsimp only
  rw [if_pos (by omega)]

theorem parseItems_forall₂ {lo hi : Nat} : ∀ {ps : List (List Char)} {vs : List Int},
    List.Forall₂ (fun p v => pyInt p = some v ∧ (lo : Int) ≤ v ∧ v ≤ (hi : Int)) ps vs →
    parseItems lo hi ps = Except.ok (vs.map Int.toNat) := by
  intro ps vs h
  induction h with
  | nil => rfl
  | cons hpv hrest ih =>
    obtain ⟨hint, hlo, hhi⟩ := hpv
    simp only [parseItems]
    rw [hint]
    dsimp only
    rw [if_neg (by omega)]
    rw [ih]
    rfl

theorem parseField_list {p q : List Char} {rest : List (List Char)} {vs : List Int} {lo hi : Nat}
    (hf : List.Forall₂ (fun pc v => pyInt pc = some v ∧ (lo : Int) ≤ v ∧ v ≤ (hi : Int))
      (p :: q :: rest) vs)
    (hnm : ∀ r ∈ p :: q :: rest, '-' ∉ r ∧ ',' ∉ r) :
    parseField (joinSep ',' (p :: q :: rest)) lo hi =
      Except.ok (sortedSet (vs.map Int.toNat)) := by
  have hcm : ',' ∈ joinSep ',' (p :: q :: rest) := by
    rw [joinSep_two]
    exact List.mem_append.mpr (Or.inr (List.mem_cons_self ',' _))
  have hnm' : '-' ∉ joinSep ',' (p :: q :: rest) := by
    intro hmem
    rcases mem_joinSep hmem with heq | ⟨r, hr, hcr⟩
    · exact absurd heq (by decide)
    · exact (hnm r hr).1 hcr
  unfold parseField
  rw [if_neg (by intro heq; rw [heq] at hcm; simp at hcm),
    if_neg (contains_false hnm'), if_pos (contains_true hcm)]
  rw [pySplitOn_joinSep (by simp) (fun r hr => (hnm r hr).2)]
  rw [parseItems_forall₂ hf]
  rfl

theorem parseField_step {s : List Char} {n : Int} {lo hi : Nat}
    (hint : pyInt s = some n) (hpos : 0 < n)
    (hm : '-' ∉ s) (hcm : ',' ∉ s) (hstar : '*' ∉ s) :
    parseField ('*' :: '/' :: s) lo hi = Except.ok (pyRangeStep lo (hi + 1) n.toNat) := by
  have hss : hasStarSlash s = false := hasStarSlash_false_of_no_star hstar
  have hm2 : '-' ∉ '*' :: '/' :: s :=
    fun h => by
      rcases List.mem_cons.mp h with h | h
      · exact absurd h (by decide)
      · rcases List.mem_cons.mp h with h | h
        · exact absurd h (by decide)
        · exact hm h
  have hcm2 : ',' ∉ '*' :: '/' :: s :=
    fun h => by
      rcases List.mem_cons.mp h with h | h
      · exact absurd h (by decide)
      · rcases List.mem_cons.mp h with h | h
        · exact absurd h (by decide)
        · exact hcm h
  unfold parseField
  rw [if_neg (by simp), if_neg (contains_false hm2), if_neg (contains_false hcm2),
    if_pos (by rw [hasStarSlash_head])]
  rw [splitStarSlash_head hss]
  rw [show ([[], s] : List (List Char)).get? 1 = some s from rfl]
  dsimp only
  rw [hint]
  dsimp only
  rw [if_neg (by omega)]

theorem parseField_step_bad {s : List Char} {n : Int} {lo hi : Nat}
    (hint : pyInt s = some n) (hpos : n ≤ 0)
    (hm : '-' ∉ s) (hcm : ',' ∉ s) (hstar : '*' ∉ s) :
    parseField ('*' :: '/' :: s) lo hi = Except.error "invalid step value" := by
  have hss : hasStarSlash s = false := hasStarSlash_false_of_no_star hstar
  have hm2 : '-' ∉ '*' :: '/' :: s :=
    fun h => by
      rcases List.mem_cons.mp h with h | h
      · exact absurd h (by decide)
      · rcases List.mem_cons.mp h with h | h
        · exact absurd h (by decide)
        · exact hm h
  have hcm2 : ',' ∉ '*' :: '/' :: s :=
    fun h => by
      rcases List.mem_cons.mp h with h | h
      · exact absurd h (by decide)
      · rcases List.mem_cons.mp h with h | h
        · exact absurd h (by decide)
        · exact hcm h
  unfold parseField
  rw [if_neg (by simp), if_neg (contains_false hm2), if_neg (contains_false hcm2),
    if_pos (by rw [hasStarSlash_head])]
  rw [splitStarSlash_head hss]
  rw [show ([[], s] : List (List Char)).get? 1 = some s from rfl]
  dsimp only
  rw [hint]
  dsimp only
  rw [if_pos (by omega)]

theorem parseField_slash_form {s1 s2 : List Char} {lo hi : Nat}
    (hm1 : '-' ∉ s1) (hm2 : '-' ∉ s2) (hc1 : ',' ∉ s1) (hc2 : ',' ∉ s2)
    (hs1 : '*' ∉ s1) (hs2 : '*' ∉ s2) :
    parseField (s1 ++ '/' :: s2) lo hi = Except.error "invalid field value" := by
  have hslash : '/' ∈ s1 ++ '/' :: s2 :=
    List.mem_append.mpr (Or.inr (List.mem_cons_self '/' s2))
  have hstar : '*' ∉ s1 ++ '/' :: s2 := notMem_append_cons hs1 (by decide) hs2
  have hss : hasStarSlash (s1 ++ '/' :: s2) = false := hasStarSlash_false_of_no_star hstar
  have hm : '-' ∉ s1 ++ '/' :: s2 := notMem_append_cons hm1 (by decide) hm2
  have hcm : ',' ∉ s1 ++ '/' :: s2 := notMem_append_cons hc1 (by decide) hc2
  have hint : pyInt (s1 ++ '/' :: s2) = none :=
    pyInt_none_of_mem (by decide) (by decide) (by decide) (by decide) hslash
  unfold parseField
  rw [if_neg (by intro heq; rw [heq] at hslash; simp at hslash),
    if_neg (contains_false hm), if_neg (contains_false hcm), if_neg (by rw [hss]; simp)]
  rw [hint]

/-- C8 counterexample: the documented step form a/n is not accepted by
_parse_field: the token 3/5 in the minute field contains no hyphen,
comma or star-slash, falls through to int() and raises, instead of
yielding the strided values from 3. -/
theorem parseField_slash_counterexample :
    parseField ('3' :: '/' :: '5' :: []) 0 59 = Except.error "invalid field value" ∧
    parseField ('3' :: '/' :: '5' :: []) 0 59 ≠ Except.ok (pyRangeStep 3 60 5) := by
  refine ⟨rfl, ?_⟩
  intro h
  exact Except.noConfusion (show Except.error "invalid field value" =
    Except.ok (pyRangeStep 3 60 5) from h)

/-- C8 amended: for each field, the parser accepts star (the full
range), a single in-bounds integer, a comma-separated list of in-bounds
integers (returned deduplicated in ascending order), an inclusive range
a-b with lo ≤ a ≤ b ≤ hi, and the step form star-slash-n with n > 0
(strides of n from the field minimum); an out-of-bounds value, an
inverted range, a nonpositive step, and the a/n step form (which the
spec also lists but the source rejects) raise a ParseError. -/
theorem parseField_token_shapes :
    (∀ lo hi : Nat, parseField ['*'] lo hi = Except.ok (pyRange lo (hi + 1))) ∧
    (∀ lo hi x : Nat, lo ≤ hi → (x ∈ pyRange lo (hi + 1) ↔ lo ≤ x ∧ x ≤ hi)) ∧
    (∀ (f : List Char) (v : Int) (lo hi : Nat),
      pyInt f = some v → '-' ∉ f → ',' ∉ f → hasStarSlash f = false → f ≠ ['*'] →
      ((lo : Int) ≤ v → v ≤ (hi : Int) → parseField f lo hi = Except.ok [v.toNat]) ∧
      (v < (lo : Int) ∨ (hi : Int) < v →
        parseField f lo hi = Except.error "field value out of range")) ∧
    (∀ (s1 s2 : List Char) (a b : Int) (lo hi : Nat),
      pyInt s1 = some a → pyInt s2 = some b → '-' ∉ s1 → '-' ∉ s2 →
      (((lo : Int) ≤ a → a ≤ b → b ≤ (hi : Int) →
        parseField (s1 ++ '-' :: s2) lo hi = Except.ok (pyRange a.toNat (b.toNat + 1)) ∧
        (∀ x : Nat, x ∈ pyRange a.toNat (b.toNat + 1) ↔ a.toNat ≤ x ∧ x ≤ b.toNat)) ∧
      (b < a → parseField (s1 ++ '-' :: s2) lo hi = Except.error "range out of bounds"))) ∧
    (∀ (p q : List Char) (rest : List (List Char)) (vs : List Int) (lo hi : Nat),
      List.Forall₂ (fun pc v => pyInt pc = some v ∧ (lo : Int) ≤ v ∧ v ≤ (hi : Int))
        (p :: q :: rest) vs →
      (∀ r ∈ p :: q :: rest, '-' ∉ r ∧ ',' ∉ r) →
      parseField (joinSep ',' (p :: q :: rest)) lo hi =
        Except.ok (sortedSet (vs.map Int.toNat)) ∧
      ∀ x : Nat, x ∈ sortedSet (vs.map Int.toNat) ↔ x ∈ vs.map Int.toNat) ∧
    (∀ (s : List Char) (n : Int) (lo hi : Nat),
      pyInt s = some n → '-' ∉ s → ',' ∉ s → '*' ∉ s →
      ((0 < n → parseField ('*' :: '/' :: s) lo hi =
          Except.ok (pyRangeStep lo (hi + 1) n.toNat) ∧
        (lo ≤ hi → ∀ x : Nat, x ∈ pyRangeStep lo (hi + 1) n.toNat ↔
          ∃ i, x = lo + n.toNat * i ∧ x ≤ hi)) ∧
      (n ≤ 0 → parseField ('*' :: '/' :: s) lo hi = Except.error "invalid step value"))) ∧
    (∀ (s1 s2 : List Char) (lo hi : Nat),
      '-' ∉ s1 → '-' ∉ s2 → ',' ∉ s1 → ',' ∉ s2 → '*' ∉ s1 → '*' ∉ s2 →
      parseField (s1 ++ '/' :: s2) lo hi = Except.error "invalid field value") := by
  refine ⟨parseField_star, ?_, ?_, ?_, ?_, ?_, ?_⟩
  · intro lo hi x h
    rw [mem_pyRange (by omega)]
    omega
  · intro f v lo hi hint hm hcm hss hstar
    exact ⟨fun hlo hhi => parseField_single hint hm hcm hss hstar hlo hhi,
      fun hv => parseField_single_oob hint hm hcm hss hstar hv⟩
  · intro s1 s2 a b lo hi h1 h2 hm1 hm2
    constructor
    · intro hla hab hbh
      refine ⟨parseField_range h1 h2 hm1 hm2 hla hab hbh, ?_⟩
      intro x
      rw [mem_pyRange (by omega)]
      omega
    · intro hba
      exact parseField_range_bad h1 h2 hm1 hm2 hba
  · intro p q rest vs lo hi hf hnm
    exact ⟨parseField_list hf hnm, fun x => mem_sortedSet⟩
  · intro s n lo hi hint hm hcm hstar
    constructor
    · intro hpos
      refine ⟨parseField_step hint hpos hm hcm hstar, ?_⟩
      intro hlohi x
      exact mem_pyRangeStep (by omega) hlohi
    · intro hneg
      exact parseField_step_bad hint hneg hm hcm hstar
  · intro s1 s2 lo hi hm1 hm2 hc1 hc2 hs1 hs2
    exact parseField_slash_form hm1 hm2 hc1 hc2 hs1 hs2

/-- Witness for C8: each token-shape clause instantiated at a concrete
field token, with every hypothesis discharged by evaluation. -/
theorem parseField_token_shapes_witness :
    parseField ['*'] 0 59 = Except.ok (pyRange 0 60) ∧
    ((3 : Nat) ∈ pyRange 0 60 ↔ 0 ≤ 3 ∧ 3 ≤ 59) ∧
    parseField ['7'] 0 59 = Except.ok [(7 : Int).toNat] ∧
    parseField ['6', '1'] 0 59 = Except.error "field value out of range" ∧
    parseField (['2'] ++ '-' :: ['5']) 0 59 =
      Except.ok (pyRange (2 : Int).toNat ((5 : Int).toNat + 1)) ∧
    parseField (['5'] ++ '-' :: ['2']) 0 59 = Except.error "range out of bounds" ∧
    parseField (joinSep ',' [['1'], ['3']]) 0 59 =
      Except.ok (sortedSet (([1, 3] : List Int).map Int.toNat)) ∧
    parseField ('*' :: '/' :: ['5']) 0 59 = Except.ok (pyRangeStep 0 60 (5 : Int).toNat) ∧
    parseField ('*' :: '/' :: ['0']) 0 59 = Except.error "invalid step value" ∧
    parseField (['3'] ++ '/' :: ['5']) 0 59 = Except.error "invalid field value" := by
  refine ⟨parseField_token_shapes.1 0 59, ?_, ?_, ?_, ?_, ?_, ?_, ?_, ?_, ?_⟩
  · exact parseField_token_shapes.2.1 0 59 3 (by decide)
  · exact (parseField_token_shapes.2.2.1 ['7'] 7 0 59 (by decide) (by decide) (by decide)
      (by decide) (by decide)).1 (by decide) (by decide)
  · exact (parseField_token_shapes.2.2.1 ['6', '1'] 61 0 59 (by decide) (by decide) (by decide)
      (by decide) (by decide)).2 (by decide)
  · exact ((parseField_token_shapes.2.2.2.1 ['2'] ['5'] 2 5 0 59 (by decide) (by decide)
      (by decide) (by decide)).1 (by decide) (by decide) (by decide)).1
  · exact (parseField_token_shapes.2.2.2.1 ['5'] ['2'] 5 2 0 59 (by decide) (by decide)
      (by decide) (by decide)).2 (by decide)
  · exact (parseField_token_shapes.2.2.2.2.1 ['1'] ['3'] [] [1, 3] 0 59
      (List.Forall₂.cons ⟨by decide, by decide, by decide⟩
        (List.Forall₂.cons ⟨by decide, by decide, by decide⟩ List.Forall₂.nil))
      (by decide)).1
  · exact ((parseField_token_shapes.2.2.2.2.2.1 ['5'] 5 0 59 (by decide) (by decide)
      (by decide) (by decide)).1 (by decide)).1
  · exact (parseField_token_shapes.2.2.2.2.2.1 ['0'] 0 0 59 (by decide) (by decide)
      (by decide) (by decide)).2 (by decide)
  · exact parseField_token_shapes.2.2.2.2.2.2 ['3'] ['5'] 0 59 (by decide) (by decide)
      (by decide) (by decide) (by decide) (by decide)
